import Mathlib

/-!
Verification of the Nanakshahi calendar conversion library.

The library converts between Gregorian and Nanakshahi dates.  It consists of
two public functions, `to` (Gregorian → Nanakshahi) and `from` (Nanakshahi →
Gregorian), a private helper `days_between`, and static tables.

The Gregorian-calendar primitive used by the code (chrono's `NaiveDate`) is
modelled here as a proleptic Gregorian calendar over non-negative years,
represented by a day number `toRD` (days since 0000-01-01) together with the
inverse `civilFromRD`.  All reachable dates in the library have years in
`0 ..= 67004`, far below chrono's year limit, so the model omits chrono's
upper year bound.

Machine integers are modelled as `Nat`/`Int` with explicit `% 2^w` where a
lossy `as` cast occurs in the source.  Overflow-checked integer operations
(`u16`/`u8` subtraction) and `expect`/`panic!`/out-of-bounds indexing are
modelled as explicit error results of type `Conv`.
-/

namespace Nanakshahi

/-- Error outcomes of the modelled Rust code: `invalidDate` is the
`expect("Invalid date")` panic, `arithUnderflow` a checked unsigned
subtraction underflow panic, `indexOutOfBounds` an out-of-bounds slice index
panic, `offsetOverflow` the explicit `panic!` when the month table is
exhausted. -/
inductive ConvError where
  | invalidDate
  | arithUnderflow
  | indexOutOfBounds
  | offsetOverflow
deriving DecidableEq, Repr

/-- Result of a modelled computation: a value, or a panic/error. -/
inductive Conv (α : Type) where
  | ok : α → Conv α
  | error : ConvError → Conv α
deriving DecidableEq, Repr

/-- The `Date` struct of the library: `year: u16`, `month: &'static str`,
`day: u8`; the integer fields are modelled as `Nat` holding the machine
value. -/
structure Date where
  year : Nat
  month : String
  day : Nat
deriving DecidableEq, Repr

def EPOCH_BEFORE_MID_MARCH : Nat := 1469

def EPOCH_ON_OR_AFTER_MID_MARCH : Nat := 1468

def NANAKSHAHI_DAYS_IN_MONTHS : List Nat :=
  [31, 31, 31, 31, 31, 30, 30, 30, 30, 30, 30, 30]

def NANAKSHAHI_MONTH_NAMES : List String :=
  ["Chet", "Vaisakh", "Jeth", "Harh", "Sawan", "Bhadon", "Assu", "Kattak",
   "Maghar", "Poh", "Magh", "Phaggan"]

def GREGORIAN_MONTH_NAMES : List String :=
  ["January", "February", "March", "April", "May", "June", "July", "August",
   "September", "October", "November", "December"]

/-! ## Model of the Gregorian calendar primitive (chrono `NaiveDate`) -/

/-- Gregorian leap year rule. -/
def isLeap (y : Nat) : Bool :=
  (y % 4 == 0 && y % 100 != 0) || y % 400 == 0

/-- Month lengths of a Gregorian year with the given leap flag. -/
def gregMonthLens (leap : Bool) : List Nat :=
  [31, if leap then 29 else 28, 31, 30, 31, 30, 31, 31, 30, 31, 30, 31]

/-- Length of Gregorian month `m` (1-based) of year `y`. -/
def gregMonthLen (y m : Nat) : Nat :=
  (gregMonthLens (isLeap y)).getD (m - 1) 0

/-- Whether `(y, m, d)` is a real Gregorian calendar date
(chrono's `from_ymd_opt` succeeds). -/
def validYmd (y m d : Nat) : Bool :=
  1 ≤ m && m ≤ 12 && 1 ≤ d && d ≤ gregMonthLen y m

/-- Number of Gregorian leap years in `[0, y)` (year 0 is a leap year). -/
def leapsBefore (y : Nat) : Nat :=
  (y + 3) / 4 + (y + 399) / 400 - (y + 99) / 100

/-- Days from 0000-01-01 to the start of year `y`. -/
def daysBeforeYear (y : Nat) : Nat :=
  365 * y + leapsBefore y

/-- Number of days in Gregorian year `y`. -/
def yearLen (y : Nat) : Nat :=
  if isLeap y then 366 else 365

/-- Days from the start of year `y` to the start of its month `m` (1-based). -/
def daysBeforeMonth (y m : Nat) : Nat :=
  ((gregMonthLens (isLeap y)).take (m - 1)).sum

/-- Day number (rata die) of the date `(y, m, d)`: days since 0000-01-01. -/
def toRD (y m d : Nat) : Nat :=
  daysBeforeYear y + daysBeforeMonth y m + (d - 1)

/-- Model of `NaiveDate::from_ymd_opt`: the day number of a valid date. -/
def fromYmd? (y m d : Nat) : Option Nat :=
  if validYmd y m d then some (toRD y m d) else none

/-- Locate the year containing a day number: starting from candidate year
`y`, repeatedly subtract whole year lengths from the remaining day count `t`.
`fuel` is a termination bound; any `fuel ≥ t` suffices. -/
def yearSplit : Nat → Nat → Nat → Nat × Nat
  | 0, y, t => (y, t)
  | fuel + 1, y, t =>
      if t < yearLen y then (y, t) else yearSplit fuel (y + 1) (t - yearLen y)

/-- Locate the month containing a day-of-year by scanning month lengths;
`m` is the 1-based index of the first month in the list. -/
def mdScan : Nat → List Nat → Nat → Nat × Nat
  | doy, [], m => (m, doy + 1)
  | doy, c :: rest, m =>
      if doy < c then (m, doy + 1) else mdScan (doy - c) rest (m + 1)

/-- Day-of-year (0-based) to (month, day), both 1-based. -/
def doyToMd (leap : Bool) (doy : Nat) : Nat × Nat :=
  mdScan doy (gregMonthLens leap) 1

/-- Inverse of `toRD`: the `(y, m, d)` components of a day number. -/
def civilFromRD (t : Nat) : Nat × Nat × Nat :=
  let y0 := t / 366
  let p := yearSplit (t + 1) y0 (t - daysBeforeYear y0)
  let md := doyToMd (isLeap p.1) p.2
  (p.1, md.1, md.2)

/-! ## The library functions -/

/-- The `month > 3 || (month == 3 && day >= 14)` test shared by `to` and
`days_between`: `0` when the date is on or after March 14, else `1`. -/
def flagOf (m d : Nat) : Nat :=
  if 3 < m ∨ (m = 3 ∧ 14 ≤ d) then 0 else 1

/-- The epoch selected by `to` for a Gregorian month/day. -/
def epochOf (m d : Nat) : Nat :=
  if 3 < m ∨ (m = 3 ∧ 14 ≤ d) then EPOCH_ON_OR_AFTER_MID_MARCH
  else EPOCH_BEFORE_MID_MARCH

/-- `fn days_between(year: u16, month: u8, day: u8) -> i64`.

Mirrors the source: build the input date (`expect` → `invalidDate` on
failure), compute `year - offset` (checked `u16` subtraction → underflow
panic), build the reference date March 14, and subtract day numbers.
The source's local `offset` is `flagOf month day`. -/
def days_between (year month day : Nat) : Conv Int :=
  match fromYmd? year month day with
  | none => .error .invalidDate
  | some t =>
      if year < flagOf month day then .error .arithUnderflow
      else
        match fromYmd? (year - flagOf month day) 3 14 with
        | none => .error .invalidDate
        | some r => .ok ((t : Int) - (r : Int))

/-- The `for (index, &days) in NANAKSHAHI_DAYS_IN_MONTHS.iter().enumerate()`
loop of `to`: returns the month index and the value `offset + 1` at the
month where the remaining offset fits, or `none` when the table is
exhausted (the `panic!` branch). -/
def toScan : Int → List Nat → Nat → Option (Nat × Int)
  | _, [], _ => none
  | off, days :: rest, index =>
      if off < (days : Int) then some (index, off + 1)
      else toScan (off - (days : Int)) rest (index + 1)

/-- `pub fn to(year: u16, month: u8, day: u8) -> Date`
(Gregorian → Nanakshahi).

The source's local `epoch` is `epochOf month day`.  `year - epoch` is
checked `u16` subtraction (underflow panic when `year < epoch`);
`(offset + 1) as u8` is a lossy cast, modelled by `% 256`. -/
def «to» (year month day : Nat) : Conv Date :=
  match days_between year month day with
  | .error e => .error e
  | .ok offset =>
      match toScan offset NANAKSHAHI_DAYS_IN_MONTHS 0 with
      | none => .error .offsetOverflow
      | some (index, d) =>
          if year < epochOf month day then .error .arithUnderflow
          else .ok ⟨year - epochOf month day,
                    NANAKSHAHI_MONTH_NAMES.getD index "", d.toNat % 256⟩

/-- The `for index in 0..(month - 1)` summation loop of `from`: the sum of
the first `n` table entries, or an out-of-bounds panic when `n > 12`
(the table has 12 entries, so the loop's index 12 is the first one that
panics). -/
def sumTake (n : Nat) : Conv Int :=
  if n ≤ 12 then .ok (((NANAKSHAHI_DAYS_IN_MONTHS.take n).sum : Nat) : Int)
  else .error .indexOutOfBounds

/-- `pub fn from(year: u16, month: u8, day: u8) -> Date`
(Nanakshahi → Gregorian).

`month - 1` is checked `u8` subtraction (underflow panic at `month = 0`);
`day as i32 - 1` may be `-1`; the reference date `(year + 1468, 3, 14)` is
always valid for `u16` year, and adding `offset ≥ -1` days keeps the day
number non-negative, so `.toNat` is exact on all reachable inputs.
`date.year() as u16` and `date.day() as u8` are lossy casts, modelled by
`% 65536` and `% 256`. -/
def «from» (year month day : Nat) : Conv Date :=
  if month = 0 then .error .arithUnderflow
  else
    match sumTake (month - 1) with
    | .error e => .error e
    | .ok s =>
        let offset : Int := s + (day : Int) - 1
        let t0 : Nat := toRD (year + EPOCH_ON_OR_AFTER_MID_MARCH) 3 14
        let t : Nat := ((t0 : Int) + offset).toNat
        let c := civilFromRD t
        .ok ⟨c.1 % 65536, GREGORIAN_MONTH_NAMES.getD (c.2.1 - 1) "",
             c.2.2 % 256⟩

/-! ## Derived definitions used in the statements -/

/-- Cumulative sum of the first `i` Nanakshahi month lengths. -/
def NCum (i : Nat) : Nat :=
  (NANAKSHAHI_DAYS_IN_MONTHS.take i).sum

/-- 1-based index of a Nanakshahi month name (the spec's "the month value
doubles as an ordinal index for round-tripping"). -/
def nanMonthIndex (s : String) : Nat :=
  NANAKSHAHI_MONTH_NAMES.findIdx (fun t => t == s) + 1

/-- 1-based index of a Gregorian month name. -/
def gregMonthIndex (s : String) : Nat :=
  GREGORIAN_MONTH_NAMES.findIdx (fun t => t == s) + 1

/-- The day offset that `days_between` returns on its success path, as a
natural number: days from March 14 of the selected reference year. -/
def dbN (y m d : Nat) : Nat :=
  toRD y m d - toRD (y - flagOf m d) 3 14

/-- `toScan` restricted to non-negative offsets (`Nat` version). -/
def scanN : Nat → List Nat → Nat → Option (Nat × Nat)
  | _, [], _ => none
  | k, c :: rest, i =>
      if k < c then some (i, k + 1) else scanN (k - c) rest (i + 1)

/-- The month-table scan of `to` on a non-negative offset. -/
def scanRes (k : Nat) : Option (Nat × Nat) :=
  scanN k NANAKSHAHI_DAYS_IN_MONTHS 0

/-- Month index produced by the scan (0-based). -/
def scanIdx (k : Nat) : Nat :=
  ((scanRes k).getD (0, 0)).1

/-- Nanakshahi day produced by the scan (1-based). -/
def scanDay (k : Nat) : Nat :=
  ((scanRes k).getD (0, 0)).2

/-- Successor of a Gregorian date (the next calendar day). -/
def nextDate (y m d : Nat) : Nat × Nat × Nat :=
  if d < gregMonthLen y m then (y, m, d + 1)
  else if m < 12 then (y, m + 1, 1)
  else (y + 1, 1, 1)

end Nanakshahi

/-! ## Arithmetic facts about the Gregorian model -/

namespace Nanakshahi

theorem isLeap_iff (y : Nat) :
    isLeap y = true ↔ ((y % 4 = 0 ∧ ¬ y % 100 = 0) ∨ y % 400 = 0) := by
  simp [isLeap, Bool.or_eq_true, Bool.and_eq_true, Nat.beq_eq_true_eq,
    bne_iff_ne, Ne]

theorem leapsBefore_le (y : Nat) : leapsBefore y ≤ y := by
  unfold leapsBefore; omega

theorem daysBeforeYear_succ (y : Nat) :
    daysBeforeYear (y + 1) = daysBeforeYear y + yearLen y := by
  unfold yearLen
  by_cases h : isLeap y = true
  · rw [if_pos h]
    rw [isLeap_iff] at h
    unfold daysBeforeYear leapsBefore
    omega
  · rw [if_neg h]
    rw [Bool.not_eq_true, ← Bool.not_eq_true, isLeap_iff] at h
    unfold daysBeforeYear leapsBefore
    omega

theorem daysBeforeYear_mono {a b : Nat} (h : a ≤ b) :
    daysBeforeYear a ≤ daysBeforeYear b := by
  unfold daysBeforeYear leapsBefore
  omega

theorem daysBeforeYear_strict {a b : Nat} (h : a < b) :
    daysBeforeYear a + 365 ≤ daysBeforeYear b := by
  unfold daysBeforeYear leapsBefore
  omega

theorem daysBeforeYear_le_366 (y : Nat) : daysBeforeYear y ≤ 366 * y := by
  unfold daysBeforeYear leapsBefore
  omega

theorem yearLen_ge (y : Nat) : 365 ≤ yearLen y := by
  unfold yearLen; split <;> omega

theorem yearLen_eq (y : Nat) :
    yearLen y = 365 + (if isLeap y then 1 else 0) := by
  unfold yearLen; split <;> omega

end Nanakshahi

namespace Nanakshahi

/-! ## Month-table facts (finite checks) -/

set_option maxRecDepth 4000 in
theorem doyToMd_spec : ∀ (leap : Bool) (doy : Nat),
    doy < (if leap then 366 else 365) →
    1 ≤ (doyToMd leap doy).1 ∧ (doyToMd leap doy).1 ≤ 12 ∧
    1 ≤ (doyToMd leap doy).2 ∧
    (doyToMd leap doy).2 ≤ (gregMonthLens leap).getD ((doyToMd leap doy).1 - 1) 0 ∧
    ((gregMonthLens leap).take ((doyToMd leap doy).1 - 1)).sum +
      ((doyToMd leap doy).2 - 1) = doy := by
  decide

set_option maxRecDepth 4000 in
theorem doyToMd_inv : ∀ (leap : Bool) (i : Nat), i < 12 → ∀ j : Nat, j < 31 →
    j + 1 ≤ (gregMonthLens leap).getD i 0 →
    doyToMd leap (((gregMonthLens leap).take i).sum + j) = (i + 1, j + 1) ∧
    ((gregMonthLens leap).take i).sum + j < (if leap then 366 else 365) := by
  decide

end Nanakshahi

namespace Nanakshahi

/-! ## Correctness of the day-number inverse -/

theorem yearSplit_spec : ∀ (fuel y t : Nat), t ≤ fuel →
    (yearSplit fuel y t).2 < yearLen (yearSplit fuel y t).1 ∧
    daysBeforeYear (yearSplit fuel y t).1 + (yearSplit fuel y t).2 =
      daysBeforeYear y + t := by
  intro fuel
  induction fuel with
  | zero =>
      intro y t ht
      have ht0 : t = 0 := Nat.le_zero.mp ht
      subst ht0
      simp [yearSplit]
      have := yearLen_ge y
      omega
  | succ f ih =>
      intro y t ht
      show (yearSplit (f + 1) y t).2 < _ ∧ _
      rw [yearSplit]
      by_cases h : t < yearLen y
      · rw [if_pos h]
        exact ⟨h, rfl⟩
      · rw [if_neg h]
        have hyl := yearLen_ge y
        have h1 : t - yearLen y ≤ f := by omega
        have h2 := ih (y + 1) (t - yearLen y) h1
        refine ⟨h2.1, ?_⟩
        rw [h2.2, daysBeforeYear_succ]
        omega

theorem civilFromRD_def (t : Nat) :
    civilFromRD t =
      ((yearSplit (t + 1) (t / 366) (t - daysBeforeYear (t / 366))).1,
       (doyToMd (isLeap (yearSplit (t + 1) (t / 366) (t - daysBeforeYear (t / 366))).1)
         (yearSplit (t + 1) (t / 366) (t - daysBeforeYear (t / 366))).2).1,
       (doyToMd (isLeap (yearSplit (t + 1) (t / 366) (t - daysBeforeYear (t / 366))).1)
         (yearSplit (t + 1) (t / 366) (t - daysBeforeYear (t / 366))).2).2) := rfl

theorem civilFromRD_parts (t : Nat) :
    daysBeforeYear (civilFromRD t).1 ≤ t ∧
    t < daysBeforeYear ((civilFromRD t).1 + 1) ∧
    ((civilFromRD t).2.1, (civilFromRD t).2.2) =
      doyToMd (isLeap (civilFromRD t).1) (t - daysBeforeYear (civilFromRD t).1) := by
  have hy0 : daysBeforeYear (t / 366) ≤ t := by
    have h1 := daysBeforeYear_le_366 (t / 366)
    have h2 : 366 * (t / 366) ≤ t := by omega
    omega
  have hfuel : t - daysBeforeYear (t / 366) ≤ t + 1 := by omega
  have hs := yearSplit_spec (t + 1) (t / 366) (t - daysBeforeYear (t / 366)) hfuel
  simp only [civilFromRD_def t]
  have heq : daysBeforeYear (yearSplit (t + 1) (t / 366) (t - daysBeforeYear (t / 366))).1 +
      (yearSplit (t + 1) (t / 366) (t - daysBeforeYear (t / 366))).2 = t := by
    rw [hs.2]; omega
  have hlt := hs.1
  refine ⟨by omega, ?_, ?_⟩
  · rw [daysBeforeYear_succ]
    omega
  · have h2 : (yearSplit (t + 1) (t / 366) (t - daysBeforeYear (t / 366))).2 =
        t - daysBeforeYear (yearSplit (t + 1) (t / 366) (t - daysBeforeYear (t / 366))).1 := by
      omega
    rw [← h2]

theorem civilFromRD_valid (t : Nat) :
    validYmd (civilFromRD t).1 (civilFromRD t).2.1 (civilFromRD t).2.2 = true ∧
    toRD (civilFromRD t).1 (civilFromRD t).2.1 (civilFromRD t).2.2 = t := by
  obtain ⟨h1, h2, h3⟩ := civilFromRD_parts t
  set Y := (civilFromRD t).1 with hY
  set doy := t - daysBeforeYear Y with hdoy
  have hdb : daysBeforeYear Y + doy = t := by omega
  have hsucc := daysBeforeYear_succ Y
  have hyl := yearLen_eq Y
  have hb2 : doy < yearLen Y := by omega
  have hbound : doy < (if isLeap Y then 366 else 365) := by
    unfold yearLen at hb2; exact hb2
  have hspec := doyToMd_spec (isLeap Y) doy hbound
  have hm1 : (civilFromRD t).2.1 = (doyToMd (isLeap Y) doy).1 := by
    have := congrArg Prod.fst h3
    simpa using this
  have hd1 : (civilFromRD t).2.2 = (doyToMd (isLeap Y) doy).2 := by
    have := congrArg Prod.snd h3
    simpa using this
  rw [hm1, hd1]
  constructor
  · simp only [validYmd, gregMonthLen, Bool.and_eq_true, decide_eq_true_eq]
    exact ⟨⟨⟨hspec.1, hspec.2.1⟩, hspec.2.2.1⟩, hspec.2.2.2.1⟩
  · unfold toRD daysBeforeMonth
    have h5 := hspec.2.2.2.2
    omega

end Nanakshahi

namespace Nanakshahi

theorem validYmd_iff (y m d : Nat) :
    validYmd y m d = true ↔ 1 ≤ m ∧ m ≤ 12 ∧ 1 ≤ d ∧ d ≤ gregMonthLen y m := by
  simp [validYmd, Bool.and_eq_true, decide_eq_true_eq, and_assoc]

theorem monthLens_le31 : ∀ (leap : Bool) (i : Nat), i < 12 →
    (gregMonthLens leap).getD i 0 ≤ 31 := by
  decide

theorem valid_doy_lt {y m d : Nat} (h : validYmd y m d = true) :
    daysBeforeMonth y m + (d - 1) < yearLen y := by
  rw [validYmd_iff] at h
  obtain ⟨h1, h2, h3, h4⟩ := h
  unfold gregMonthLen at h4
  have hi : m - 1 < 12 := by omega
  have h31 := monthLens_le31 (isLeap y) (m - 1) hi
  have hj : d - 1 < 31 := by omega
  have hj2 : (d - 1) + 1 ≤ (gregMonthLens (isLeap y)).getD (m - 1) 0 := by omega
  have := (doyToMd_inv (isLeap y) (m - 1) hi (d - 1) hj hj2).2
  unfold daysBeforeMonth yearLen
  split
  · rename_i hl
    rw [if_pos hl] at this
    omega
  · rename_i hl
    rw [if_neg hl] at this
    omega

theorem toRD_lt_next {y m d : Nat} (h : validYmd y m d = true) :
    toRD y m d < daysBeforeYear (y + 1) := by
  have h1 := valid_doy_lt h
  have h2 := daysBeforeYear_succ y
  unfold toRD
  omega

theorem toRD_ge (y m d : Nat) : daysBeforeYear y ≤ toRD y m d := by
  unfold toRD; omega

theorem rd_year_unique {a b t : Nat}
    (ha1 : daysBeforeYear a ≤ t) (ha2 : t < daysBeforeYear (a + 1))
    (hb1 : daysBeforeYear b ≤ t) (hb2 : t < daysBeforeYear (b + 1)) : a = b := by
  rcases Nat.lt_trichotomy a b with h | h | h
  · have := daysBeforeYear_mono (show a + 1 ≤ b by omega)
    omega
  · exact h
  · have := daysBeforeYear_mono (show b + 1 ≤ a by omega)
    omega

theorem toRD_civil {y m d : Nat} (h : validYmd y m d = true) :
    civilFromRD (toRD y m d) = (y, m, d) := by
  obtain ⟨p1, p2, p3⟩ := civilFromRD_parts (toRD y m d)
  have hy : (civilFromRD (toRD y m d)).1 = y :=
    rd_year_unique p1 p2 (toRD_ge y m d) (toRD_lt_next h)
  rw [hy] at p3
  rw [validYmd_iff] at h
  obtain ⟨h1, h2, h3, h4⟩ := h
  unfold gregMonthLen at h4
  have hdoy : toRD y m d - daysBeforeYear y = daysBeforeMonth y m + (d - 1) := by
    unfold toRD
    omega
  rw [hdoy] at p3
  have hi : m - 1 < 12 := by omega
  have hj : d - 1 < 31 := by
    have := monthLens_le31 (isLeap y) (m - 1) hi
    omega
  have hj2 : (d - 1) + 1 ≤ (gregMonthLens (isLeap y)).getD (m - 1) 0 := by omega
  have hinv := (doyToMd_inv (isLeap y) (m - 1) hi (d - 1) hj hj2).1
  unfold daysBeforeMonth at p3
  rw [hinv] at p3
  have hm : (civilFromRD (toRD y m d)).2.1 = m := by
    have := congrArg Prod.fst p3
    simp at this
    omega
  have hd : (civilFromRD (toRD y m d)).2.2 = d := by
    have := congrArg Prod.snd p3
    simp at this
    omega
  have : civilFromRD (toRD y m d) =
      ((civilFromRD (toRD y m d)).1,
       (civilFromRD (toRD y m d)).2.1, (civilFromRD (toRD y m d)).2.2) := rfl
  rw [this, hy, hm, hd]

end Nanakshahi

namespace Nanakshahi

/-! ## March 14 and the reference year -/

theorem valid_mar14 (y : Nat) : validYmd y 3 14 = true := by
  rw [validYmd_iff]
  refine ⟨by omega, by omega, by omega, ?_⟩
  unfold gregMonthLen gregMonthLens
  rcases Bool.eq_false_or_eq_true (isLeap y) with hl | hl <;> rw [hl] <;> simp

theorem toRD_mar14 (y : Nat) :
    toRD y 3 14 = daysBeforeYear y + 72 + (if isLeap y then 1 else 0) := by
  unfold toRD daysBeforeMonth gregMonthLens
  rcases Bool.eq_false_or_eq_true (isLeap y) with hl | hl <;> rw [hl] <;> simp

theorem epochOf_eq (m d : Nat) : epochOf m d = 1468 + flagOf m d := by
  unfold epochOf flagOf EPOCH_ON_OR_AFTER_MID_MARCH EPOCH_BEFORE_MID_MARCH
  split <;> omega

theorem flagOf_le_one (m d : Nat) : flagOf m d ≤ 1 := by
  unfold flagOf; split <;> omega

theorem dBM_values : ∀ (leap : Bool),
    ((gregMonthLens leap).take 0).sum = 0 ∧
    ((gregMonthLens leap).take 1).sum = 31 ∧
    ((gregMonthLens leap).take 2).sum = 59 + (if leap then 1 else 0) := by
  decide

theorem dBM_bounds : ∀ (leap : Bool) (i : Nat), i < 12 →
    ((gregMonthLens leap).take i).sum ≤ 334 + (if leap then 1 else 0) ∧
    (3 ≤ i → 90 + (if leap then 1 else 0) ≤ ((gregMonthLens leap).take i).sum) := by
  decide

theorem mar14_le_toRD_flag0 {y m d : Nat} (h : validYmd y m d = true)
    (hf : 3 < m ∨ (m = 3 ∧ 14 ≤ d)) : toRD y 3 14 ≤ toRD y m d := by
  rw [validYmd_iff] at h
  obtain ⟨h1, h2, h3, h4⟩ := h
  rw [toRD_mar14]
  unfold toRD daysBeforeMonth
  rcases hf with hf | hf
  · have := (dBM_bounds (isLeap y) (m - 1) (by omega)).2 (by omega)
    omega
  · obtain ⟨hm, hd⟩ := hf
    subst hm
    have := (dBM_values (isLeap y)).2.2
    norm_num
    omega

theorem toRD_lt_mar14_flag1 {y m d : Nat} (h : validYmd y m d = true)
    (hf : ¬(3 < m ∨ (m = 3 ∧ 14 ≤ d))) : toRD y m d < toRD y 3 14 := by
  rw [validYmd_iff] at h
  obtain ⟨h1, h2, h3, h4⟩ := h
  unfold gregMonthLen at h4
  rw [toRD_mar14]
  unfold toRD daysBeforeMonth
  push_neg at hf
  have hm3 : m ≤ 3 := by omega
  have hv := dBM_values (isLeap y)
  interval_cases m
  · have hg : ∀ leap : Bool, (gregMonthLens leap)[0]?.getD 0 = 31 := by decide
    have := hg (isLeap y)
    norm_num at h4 ⊢
    omega
  · have hg : ∀ leap : Bool,
        (gregMonthLens leap)[1]?.getD 0 = 28 + (if leap then 1 else 0) := by decide
    have := hg (isLeap y)
    norm_num at h4 ⊢
    omega
  · have hd13 : d ≤ 13 := by
      have := hf.2 rfl
      omega
    norm_num at h4 ⊢
    omega

theorem mar14_prev_eq {y : Nat} (h : 1 ≤ y) :
    toRD (y - 1) 3 14 + 293 = daysBeforeYear y := by
  have hs := daysBeforeYear_succ (y - 1)
  have hy : y - 1 + 1 = y := by omega
  rw [hy] at hs
  rw [toRD_mar14]
  have := yearLen_eq (y - 1)
  omega

theorem ref_le_toRD {y m d : Nat} (h : validYmd y m d = true)
    (hfy : flagOf m d ≤ y) : toRD (y - flagOf m d) 3 14 ≤ toRD y m d := by
  unfold flagOf
  by_cases hf : 3 < m ∨ (m = 3 ∧ 14 ≤ d)
  · rw [if_pos hf]
    simpa using mar14_le_toRD_flag0 h hf
  · rw [if_neg hf]
    have h1 : 1 ≤ y := by
      unfold flagOf at hfy
      rw [if_neg hf] at hfy
      omega
    have := mar14_prev_eq h1
    have := toRD_ge y m d
    omega

theorem toRD_mar14_succ (y : Nat) :
    toRD (y + 1) 3 14 = toRD y 3 14 + 365 + (if isLeap (y + 1) then 1 else 0) := by
  rw [toRD_mar14, toRD_mar14, daysBeforeYear_succ, yearLen_eq]
  omega

end Nanakshahi


namespace Nanakshahi

/-! ## Characterization of days_between -/

theorem days_between_ok {y m d : Nat} (h : validYmd y m d = true)
    (hfy : flagOf m d ≤ y) :
    days_between y m d =
      .ok ((toRD y m d : Int) - (toRD (y - flagOf m d) 3 14 : Int)) := by
  unfold days_between fromYmd?
  rw [if_pos h, if_pos (valid_mar14 (y - flagOf m d))]
  show (if y < flagOf m d then Conv.error ConvError.arithUnderflow
    else Conv.ok ((toRD y m d : Int) - (toRD (y - flagOf m d) 3 14 : Int))) = _
  rw [if_neg (by omega)]

theorem days_between_eq_dbN {y m d : Nat} (h : validYmd y m d = true)
    (hfy : flagOf m d ≤ y) :
    days_between y m d = .ok ((dbN y m d : Nat) : Int) := by
  rw [days_between_ok h hfy]
  have hle := ref_le_toRD h hfy
  unfold dbN
  congr 1
  omega

theorem days_between_invalid {y m d : Nat} (hv : validYmd y m d = false) :
    days_between y m d = .error .invalidDate := by
  unfold days_between fromYmd?
  rw [if_neg (by simp [hv])]

theorem days_between_underflow {y m d : Nat} (hv : validYmd y m d = true)
    (hfy : y < flagOf m d) : days_between y m d = .error .arithUnderflow := by
  unfold days_between fromYmd?
  rw [if_pos hv]
  show (if y < flagOf m d then Conv.error ConvError.arithUnderflow
    else (match (if validYmd (y - flagOf m d) 3 14 = true
        then some (toRD (y - flagOf m d) 3 14) else none) with
      | none => Conv.error ConvError.invalidDate
      | some r => Conv.ok ((toRD y m d : Int) - (r : Int)))) = _
  rw [if_pos hfy]

theorem days_between_ok_inv {y m d : Nat} {v : Int}
    (h : days_between y m d = .ok v) :
    validYmd y m d = true ∧ flagOf m d ≤ y ∧ v = ((dbN y m d : Nat) : Int) := by
  rcases Bool.eq_false_or_eq_true (validYmd y m d) with hv | hv
  · by_cases hfy : flagOf m d ≤ y
    · rw [days_between_eq_dbN hv hfy] at h
      refine ⟨hv, hfy, ?_⟩
      injection h with h
      omega
    · rw [days_between_underflow hv (by omega)] at h
      exact absurd h (by simp)
  · rw [days_between_invalid hv] at h
    exact absurd h (by simp)

theorem dbN_exact {y m d : Nat} (h : validYmd y m d = true)
    (hfy : flagOf m d ≤ y) :
    toRD (y - flagOf m d) 3 14 + dbN y m d = toRD y m d := by
  have := ref_le_toRD h hfy
  unfold dbN
  omega

theorem dbN_mar14 (y : Nat) : dbN y 3 14 = 0 := by
  unfold dbN flagOf
  rw [if_pos (by omega)]
  simp

end Nanakshahi

namespace Nanakshahi

theorem flagOf_pos {m d : Nat} (hf : 3 < m ∨ (m = 3 ∧ 14 ≤ d)) :
    flagOf m d = 0 := by
  unfold flagOf
  rw [if_pos hf]

theorem flagOf_neg {m d : Nat} (hf : ¬(3 < m ∨ (m = 3 ∧ 14 ≤ d))) :
    flagOf m d = 1 := by
  unfold flagOf
  rw [if_neg hf]

theorem dbN_flag0 {y m d : Nat} (h : validYmd y m d = true)
    (hf : 3 < m ∨ (m = 3 ∧ 14 ≤ d)) :
    dbN y m d =
      daysBeforeMonth y m + (d - 1) - (72 + (if isLeap y then 1 else 0)) := by
  have hexact := dbN_exact h (by rw [flagOf_pos hf]; omega)
  rw [flagOf_pos hf] at hexact
  norm_num at hexact
  rw [toRD_mar14] at hexact
  unfold toRD at hexact
  omega

theorem dbN_flag1 {y m d : Nat} (h : validYmd y m d = true)
    (hf : ¬(3 < m ∨ (m = 3 ∧ 14 ≤ d))) (hy : 1 ≤ y) :
    dbN y m d = 293 + daysBeforeMonth y m + (d - 1) := by
  have hexact := dbN_exact h (by rw [flagOf_neg hf]; omega)
  rw [flagOf_neg hf] at hexact
  have hprev := mar14_prev_eq hy
  have ht : toRD y m d = daysBeforeYear y + daysBeforeMonth y m + (d - 1) := rfl
  omega

theorem dbN_mar13 {y : Nat} (hy : 1 ≤ y) :
    dbN y 3 13 = 364 + (if isLeap y then 1 else 0) := by
  have h : validYmd y 3 13 = true := by
    rw [validYmd_iff]
    refine ⟨by omega, by omega, by omega, ?_⟩
    unfold gregMonthLen gregMonthLens
    rcases Bool.eq_false_or_eq_true (isLeap y) with hl | hl <;> rw [hl] <;> simp
  rw [dbN_flag1 h (by omega) hy]
  have h59 : daysBeforeMonth y 3 = 59 + (if isLeap y then 1 else 0) :=
    (dBM_values (isLeap y)).2.2
  omega

theorem dbN_lt_365 {y m d : Nat} (h : validYmd y m d = true)
    (hfy : flagOf m d ≤ y)
    (hx : ¬(m = 3 ∧ d = 13 ∧ isLeap y = true)) : dbN y m d < 365 := by
  have hval := h
  rw [validYmd_iff] at hval
  obtain ⟨h1, h2, h3, h4⟩ := hval
  unfold gregMonthLen at h4
  by_cases hf : 3 < m ∨ (m = 3 ∧ 14 ≤ d)
  · rw [dbN_flag0 h hf]
    have hub := (dBM_bounds (isLeap y) (m - 1) (by omega)).1
    have h31 := monthLens_le31 (isLeap y) (m - 1) (by omega)
    unfold daysBeforeMonth
    omega
  · have hy : 1 ≤ y := by
      rw [flagOf_neg hf] at hfy
      omega
    rw [dbN_flag1 h hf hy]
    push_neg at hf
    have hm3 : m ≤ 3 := by omega
    have hcase : m = 1 ∨ m = 2 ∨ m = 3 := by omega
    rcases hcase with rfl | rfl | rfl
    · have hA : (gregMonthLens (isLeap y)).getD (1 - 1) 0 = 31 := by
        rcases Bool.eq_false_or_eq_true (isLeap y) with hl | hl <;> rw [hl] <;> rfl
      have hB : daysBeforeMonth y 1 = 0 := by
        unfold daysBeforeMonth
        rcases Bool.eq_false_or_eq_true (isLeap y) with hl | hl <;> rw [hl] <;> rfl
      omega
    · have hA : (gregMonthLens (isLeap y)).getD (2 - 1) 0 ≤ 29 := by
        rcases Bool.eq_false_or_eq_true (isLeap y) with hl | hl <;> rw [hl] <;> decide
      have hB : daysBeforeMonth y 2 = 31 := by
        unfold daysBeforeMonth
        rcases Bool.eq_false_or_eq_true (isLeap y) with hl | hl <;> rw [hl] <;> rfl
      omega
    · have hd13 : d ≤ 13 := by
        have := hf.2 rfl
        omega
      have hB : daysBeforeMonth y 3 = 59 + (if isLeap y then 1 else 0) :=
        (dBM_values (isLeap y)).2.2
      have hd12 : d ≤ 12 ∨ (d = 13 ∧ isLeap y = false) := by
        rcases Bool.eq_false_or_eq_true (isLeap y) with hl | hl
        · have hne : ¬d = 13 := by simpa [hl] using hx
          exact Or.inl (by omega)
        · rcases Nat.lt_or_ge d 13 with hd | hd
          · exact Or.inl (by omega)
          · exact Or.inr ⟨by omega, hl⟩
      have hif : (if isLeap y = true then 1 else 0) ≤ 1 := by split <;> omega
      rcases hd12 with hd | ⟨hd, hl⟩
      · omega
      · rw [hl] at hB
        simp at hB
        omega

end Nanakshahi

namespace Nanakshahi

/-! ## The month-table scan of `to` -/

theorem toScan_coe (l : List Nat) : ∀ (k i : Nat),
    toScan (k : Int) l i = (scanN k l i).map (fun p => (p.1, (p.2 : Int))) := by
  induction l with
  | nil => intro k i; rfl
  | cons c rest ih =>
      intro k i
      show (if (k : Int) < (c : Int) then some (i, (k : Int) + 1)
          else toScan ((k : Int) - (c : Int)) rest (i + 1)) =
        (if k < c then some (i, k + 1) else scanN (k - c) rest (i + 1)).map
          (fun p => (p.1, (p.2 : Int)))
      by_cases hk : k < c
      · have hki : (k : Int) < (c : Int) := by exact_mod_cast hk
        rw [if_pos hki, if_pos hk]
        simp
      · have hki : ¬((k : Int) < (c : Int)) := by exact_mod_cast hk
        have hcast : (k : Int) - (c : Int) = ((k - c : Nat) : Int) := by
          have : c ≤ k := Nat.le_of_not_lt hk
          omega
        rw [if_neg hki, if_neg hk, hcast]
        exact ih (k - c) (i + 1)

theorem scanN_none : ∀ (l : List Nat) (k i : Nat), l.sum ≤ k →
    scanN k l i = none := by
  intro l
  induction l with
  | nil => intro k i _; rfl
  | cons c rest ih =>
      intro k i hs
      have hcs : c + rest.sum ≤ k := by simpa [List.sum_cons] using hs
      show (if k < c then some (i, k + 1) else scanN (k - c) rest (i + 1)) = none
      rw [if_neg (by omega)]
      exact ih (k - c) (i + 1) (by omega)

theorem scanRes_none {k : Nat} (hk : 365 ≤ k) : scanRes k = none := by
  have hsum : NANAKSHAHI_DAYS_IN_MONTHS.sum = 365 := by decide
  exact scanN_none NANAKSHAHI_DAYS_IN_MONTHS k 0 (by omega)

set_option maxRecDepth 8000 in
theorem scanRes_spec : ∀ k : Nat, k < 365 →
    scanRes k = some (scanIdx k, scanDay k) ∧
    scanIdx k < 12 ∧ 1 ≤ scanDay k ∧
    scanDay k ≤ NANAKSHAHI_DAYS_IN_MONTHS.getD (scanIdx k) 0 ∧
    NCum (scanIdx k) + (scanDay k - 1) = k := by
  decide

set_option maxRecDepth 4000 in
theorem scanRes_inv : ∀ i : Nat, i < 12 → ∀ j : Nat, j < 31 →
    j + 1 ≤ NANAKSHAHI_DAYS_IN_MONTHS.getD i 0 →
    scanRes (NCum i + j) = some (i, j + 1) ∧ NCum i + j ≤ 364 := by
  decide

set_option maxRecDepth 8000 in
theorem scanRes_succ : ∀ k : Nat, k < 364 →
    (scanIdx (k + 1) = scanIdx k ∧ scanDay (k + 1) = scanDay k + 1) ∨
    (scanIdx (k + 1) = scanIdx k + 1 ∧ scanDay (k + 1) = 1) := by
  decide

theorem nanTable_le31 : ∀ i : Nat, i < 12 →
    NANAKSHAHI_DAYS_IN_MONTHS.getD i 0 ≤ 31 := by
  decide

theorem nanMonthIndex_getD : ∀ i : Nat, i < 12 →
    nanMonthIndex (NANAKSHAHI_MONTH_NAMES.getD i "") = i + 1 := by
  decide

theorem gregMonthIndex_getD : ∀ i : Nat, i < 12 →
    gregMonthIndex (GREGORIAN_MONTH_NAMES.getD i "") = i + 1 := by
  decide

end Nanakshahi

namespace Nanakshahi

/-! ## Characterization of `to` -/

theorem to_ok_char {y m d : Nat} (h : validYmd y m d = true)
    (hey : epochOf m d ≤ y) (hlt : dbN y m d < 365) :
    «to» y m d = .ok ⟨y - epochOf m d,
      NANAKSHAHI_MONTH_NAMES.getD (scanIdx (dbN y m d)) "",
      scanDay (dbN y m d)⟩ := by
  have hfy : flagOf m d ≤ y := by
    have := epochOf_eq m d
    have := flagOf_le_one m d
    omega
  have hs := scanRes_spec (dbN y m d) hlt
  unfold «to»
  rw [days_between_eq_dbN h hfy]
  show (match toScan ((dbN y m d : Nat) : Int) NANAKSHAHI_DAYS_IN_MONTHS 0 with
    | none => Conv.error ConvError.offsetOverflow
    | some (index, dd) =>
        if y < epochOf m d then Conv.error ConvError.arithUnderflow
        else Conv.ok (Date.mk (y - epochOf m d)
          (NANAKSHAHI_MONTH_NAMES.getD index "") (dd.toNat % 256))) = _
  rw [toScan_coe NANAKSHAHI_DAYS_IN_MONTHS (dbN y m d) 0]
  have hsc : scanN (dbN y m d) NANAKSHAHI_DAYS_IN_MONTHS 0 =
      some (scanIdx (dbN y m d), scanDay (dbN y m d)) := hs.1
  rw [hsc]
  show (if y < epochOf m d then Conv.error ConvError.arithUnderflow
    else Conv.ok (Date.mk (y - epochOf m d)
      (NANAKSHAHI_MONTH_NAMES.getD (scanIdx (dbN y m d)) "")
      (((scanDay (dbN y m d) : Int)).toNat % 256))) = _
  rw [if_neg (by omega)]
  have h31 : scanDay (dbN y m d) ≤ 31 := by
    have := nanTable_le31 (scanIdx (dbN y m d)) hs.2.1
    omega
  have hday : ((scanDay (dbN y m d) : Int)).toNat % 256 = scanDay (dbN y m d) := by
    rw [Int.toNat_natCast]
    exact Nat.mod_eq_of_lt (by omega)
  rw [hday]

theorem to_invalid {y m d : Nat} (hv : validYmd y m d = false) :
    «to» y m d = .error .invalidDate := by
  unfold «to»
  rw [days_between_invalid hv]

theorem to_underflow_db {y m d : Nat} (hv : validYmd y m d = true)
    (hfy : y < flagOf m d) : «to» y m d = .error .arithUnderflow := by
  unfold «to»
  rw [days_between_underflow hv hfy]

theorem to_overflow_char {y m d : Nat} (hv : validYmd y m d = true)
    (hfy : flagOf m d ≤ y) (hge : 365 ≤ dbN y m d) :
    «to» y m d = .error .offsetOverflow := by
  unfold «to»
  rw [days_between_eq_dbN hv hfy]
  show (match toScan ((dbN y m d : Nat) : Int) NANAKSHAHI_DAYS_IN_MONTHS 0 with
    | none => Conv.error ConvError.offsetOverflow
    | some (index, dd) =>
        if y < epochOf m d then Conv.error ConvError.arithUnderflow
        else Conv.ok (Date.mk (y - epochOf m d)
          (NANAKSHAHI_MONTH_NAMES.getD index "") (dd.toNat % 256))) = _
  rw [toScan_coe NANAKSHAHI_DAYS_IN_MONTHS (dbN y m d) 0]
  have hsc : scanN (dbN y m d) NANAKSHAHI_DAYS_IN_MONTHS 0 = none :=
    scanRes_none hge
  rw [hsc]
  rfl

theorem to_underflow_epoch {y m d : Nat} (hv : validYmd y m d = true)
    (hfy : flagOf m d ≤ y) (hlt : dbN y m d < 365) (hey : y < epochOf m d) :
    «to» y m d = .error .arithUnderflow := by
  unfold «to»
  rw [days_between_eq_dbN hv hfy]
  show (match toScan ((dbN y m d : Nat) : Int) NANAKSHAHI_DAYS_IN_MONTHS 0 with
    | none => Conv.error ConvError.offsetOverflow
    | some (index, dd) =>
        if y < epochOf m d then Conv.error ConvError.arithUnderflow
        else Conv.ok (Date.mk (y - epochOf m d)
          (NANAKSHAHI_MONTH_NAMES.getD index "") (dd.toNat % 256))) = _
  rw [toScan_coe NANAKSHAHI_DAYS_IN_MONTHS (dbN y m d) 0]
  have hsc : scanN (dbN y m d) NANAKSHAHI_DAYS_IN_MONTHS 0 =
      some (scanIdx (dbN y m d), scanDay (dbN y m d)) :=
    (scanRes_spec (dbN y m d) hlt).1
  rw [hsc]
  show (if y < epochOf m d then Conv.error ConvError.arithUnderflow
    else Conv.ok (Date.mk (y - epochOf m d)
      (NANAKSHAHI_MONTH_NAMES.getD (scanIdx (dbN y m d)) "")
      (((scanDay (dbN y m d) : Int)).toNat % 256))) = _
  rw [if_pos hey]

theorem to_ok_inv {y m d : Nat} {N : Date} (h : «to» y m d = .ok N) :
    validYmd y m d = true ∧ epochOf m d ≤ y ∧ dbN y m d < 365 ∧
    N = ⟨y - epochOf m d,
      NANAKSHAHI_MONTH_NAMES.getD (scanIdx (dbN y m d)) "",
      scanDay (dbN y m d)⟩ := by
  rcases Bool.eq_false_or_eq_true (validYmd y m d) with hv | hv
  · by_cases hfy : flagOf m d ≤ y
    · by_cases hlt : dbN y m d < 365
      · by_cases hey : epochOf m d ≤ y
        · have hc := to_ok_char hv hey hlt
          rw [hc] at h
          injection h with h
          exact ⟨hv, hey, hlt, h.symm⟩
        · rw [to_underflow_epoch hv hfy hlt (by omega)] at h
          exact absurd h (by simp)
      · rw [to_overflow_char hv hfy (by omega)] at h
        exact absurd h (by simp)
    · rw [to_underflow_db hv (by omega)] at h
      exact absurd h (by simp)
  · rw [to_invalid hv] at h
    exact absurd h (by simp)

end Nanakshahi

namespace Nanakshahi

/-! ## Characterization of `from` -/

theorem sumTake_le {n : Nat} (h : n ≤ 12) : sumTake n = .ok ((NCum n : Nat) : Int) := by
  unfold sumTake NCum
  rw [if_pos h]

theorem from_month0 (y d : Nat) : «from» y 0 d = .error .arithUnderflow := by
  unfold «from»
  rw [if_pos rfl]

theorem from_oob {y mo d : Nat} (h : 14 ≤ mo) :
    «from» y mo d = .error .indexOutOfBounds := by
  unfold «from»
  rw [if_neg (by omega)]
  unfold sumTake
  rw [if_neg (by omega)]

theorem from_ok_char {nY mo dd t : Nat} (h1 : 1 ≤ mo) (h2 : mo ≤ 13)
    (h3 : 1 ≤ dd)
    (ht : t = toRD (nY + EPOCH_ON_OR_AFTER_MID_MARCH) 3 14 +
      (NCum (mo - 1) + (dd - 1))) :
    «from» nY mo dd = .ok (Date.mk ((civilFromRD t).1 % 65536)
      (GREGORIAN_MONTH_NAMES.getD ((civilFromRD t).2.1 - 1) "")
      ((civilFromRD t).2.2 % 256)) := by
  unfold «from»
  rw [if_neg (by omega), sumTake_le (show mo - 1 ≤ 12 by omega)]
  have hT : (((toRD (nY + EPOCH_ON_OR_AFTER_MID_MARCH) 3 14 : Nat) : Int) +
      (((NCum (mo - 1) : Nat) : Int) + (dd : Int) - 1)).toNat = t := by
    omega
  show Conv.ok (Date.mk
      ((civilFromRD (((toRD (nY + EPOCH_ON_OR_AFTER_MID_MARCH) 3 14 : Nat) : Int) +
        (((NCum (mo - 1) : Nat) : Int) + (dd : Int) - 1)).toNat).1 % 65536)
      (GREGORIAN_MONTH_NAMES.getD
        ((civilFromRD (((toRD (nY + EPOCH_ON_OR_AFTER_MID_MARCH) 3 14 : Nat) : Int) +
          (((NCum (mo - 1) : Nat) : Int) + (dd : Int) - 1)).toNat).2.1 - 1) "")
      ((civilFromRD (((toRD (nY + EPOCH_ON_OR_AFTER_MID_MARCH) 3 14 : Nat) : Int) +
        (((NCum (mo - 1) : Nat) : Int) + (dd : Int) - 1)).toNat).2.2 % 256)) = _
  rw [hT]

/-! ## The reference year of a day number -/

theorem mar14_strict {a b : Nat} (h : a < b) : toRD a 3 14 < toRD b 3 14 := by
  rw [toRD_mar14, toRD_mar14]
  have := daysBeforeYear_strict h
  have ha : (if isLeap a then 1 else 0) ≤ 1 := by split <;> omega
  have hb : (0 : Nat) ≤ (if isLeap b then 1 else 0) := by omega
  omega

theorem mar14_mono {a b : Nat} (h : a ≤ b) : toRD a 3 14 ≤ toRD b 3 14 := by
  rcases Nat.eq_or_lt_of_le h with rfl | h
  · omega
  · exact Nat.le_of_lt (mar14_strict h)

theorem mar14_interval_unique {a b t : Nat}
    (ha1 : toRD a 3 14 ≤ t) (ha2 : t < toRD (a + 1) 3 14)
    (hb1 : toRD b 3 14 ≤ t) (hb2 : t < toRD (b + 1) 3 14) : a = b := by
  rcases Nat.lt_trichotomy a b with h | h | h
  · have := mar14_mono (show a + 1 ≤ b by omega)
    omega
  · exact h
  · have := mar14_mono (show b + 1 ≤ a by omega)
    omega

theorem rd_ref_year {Y t : Nat} (hY : 1 ≤ Y)
    (h1 : toRD Y 3 14 ≤ t) (h2 : t < toRD (Y + 1) 3 14) :
    flagOf (civilFromRD t).2.1 (civilFromRD t).2.2 ≤ (civilFromRD t).1 ∧
    (civilFromRD t).1 - flagOf (civilFromRD t).2.1 (civilFromRD t).2.2 = Y ∧
    (civilFromRD t).1 ≤ Y + 1 := by
  obtain ⟨hv, hrd⟩ := civilFromRD_valid t
  by_cases hf : 3 < (civilFromRD t).2.1 ∨
      ((civilFromRD t).2.1 = 3 ∧ 14 ≤ (civilFromRD t).2.2)
  · rw [flagOf_pos hf]
    have hlow : toRD (civilFromRD t).1 3 14 ≤ t := by
      have := mar14_le_toRD_flag0 hv hf
      omega
    have hhigh : t < toRD ((civilFromRD t).1 + 1) 3 14 := by
      have hx := toRD_lt_next hv
      rw [toRD_mar14]
      omega
    have := mar14_interval_unique hlow hhigh h1 h2
    omega
  · rw [flagOf_neg hf]
    have hy1 : 1 ≤ (civilFromRD t).1 := by
      by_contra hc
      have hz : (civilFromRD t).1 = 0 := by omega
      have hdoy := valid_doy_lt hv
      have hyl : yearLen (civilFromRD t).1 = 366 := by rw [hz]; decide
      have h0 : daysBeforeYear (civilFromRD t).1 = 0 := by rw [hz]; decide
      have ht' : toRD (civilFromRD t).1 (civilFromRD t).2.1 (civilFromRD t).2.2 =
          daysBeforeYear (civilFromRD t).1 +
          daysBeforeMonth (civilFromRD t).1 (civilFromRD t).2.1 +
          ((civilFromRD t).2.2 - 1) := rfl
      have h438 : toRD 1 3 14 = 438 := by decide
      have hge : toRD 1 3 14 ≤ toRD Y 3 14 := mar14_mono hY
      omega
    have hlow : toRD ((civilFromRD t).1 - 1) 3 14 ≤ t := by
      have hprev := mar14_prev_eq hy1
      have := toRD_ge (civilFromRD t).1 (civilFromRD t).2.1 (civilFromRD t).2.2
      omega
    have hhigh : t < toRD ((civilFromRD t).1 - 1 + 1) 3 14 := by
      rw [show (civilFromRD t).1 - 1 + 1 = (civilFromRD t).1 by omega]
      have := toRD_lt_mar14_flag1 hv hf
      omega
    have := mar14_interval_unique hlow hhigh h1 h2
    omega

end Nanakshahi

namespace Nanakshahi

/-! ## The successor date -/

theorem gregTable_facts : ∀ leap : Bool,
    ((gregMonthLens leap).take 11).sum = 334 + (if leap then 1 else 0) ∧
    (gregMonthLens leap).getD 11 0 = 31 ∧
    (gregMonthLens leap).getD 0 0 = 31 := by
  decide

theorem dBM_step : ∀ (leap : Bool) (i : Nat), i < 12 →
    ((gregMonthLens leap).take (i + 1)).sum =
      ((gregMonthLens leap).take i).sum + (gregMonthLens leap).getD i 0 := by
  decide

theorem monthLens_pos : ∀ (leap : Bool) (i : Nat), i < 12 →
    1 ≤ (gregMonthLens leap).getD i 0 := by
  decide

theorem nextDate_spec {y m d : Nat} (h : validYmd y m d = true) :
    validYmd (nextDate y m d).1 (nextDate y m d).2.1 (nextDate y m d).2.2 = true ∧
    toRD (nextDate y m d).1 (nextDate y m d).2.1 (nextDate y m d).2.2 =
      toRD y m d + 1 := by
  have hval := h
  rw [validYmd_iff] at hval
  obtain ⟨h1, h2, h3, h4⟩ := hval
  unfold gregMonthLen at h4
  unfold nextDate
  by_cases hd : d < gregMonthLen y m
  · rw [if_pos hd]
    unfold gregMonthLen at hd
    show validYmd y m (d + 1) = true ∧ toRD y m (d + 1) = toRD y m d + 1
    constructor
    · rw [validYmd_iff]
      unfold gregMonthLen
      exact ⟨h1, h2, by omega, by omega⟩
    · unfold toRD
      omega
  · rw [if_neg hd]
    unfold gregMonthLen at hd
    have hdeq : d = (gregMonthLens (isLeap y)).getD (m - 1) 0 := by omega
    by_cases hm : m < 12
    · rw [if_pos hm]
      show validYmd y (m + 1) 1 = true ∧ toRD y (m + 1) 1 = toRD y m d + 1
      have hpos := monthLens_pos (isLeap y) m (by omega)
      constructor
      · rw [validYmd_iff]
        unfold gregMonthLen
        refine ⟨by omega, by omega, by omega, ?_⟩
        rw [show m + 1 - 1 = m by omega]
        omega
      · unfold toRD daysBeforeMonth
        rw [show m + 1 - 1 = m by omega,
          show m = (m - 1) + 1 by omega]
        rw [dBM_step (isLeap y) (m - 1) (by omega)]
        rw [show m - 1 + 1 - 1 = m - 1 by omega]
        omega
    · rw [if_neg hm]
      have hm12 : m = 12 := by omega
      subst hm12
      have hfacts := gregTable_facts (isLeap y)
      have hfacts1 := gregTable_facts (isLeap (y + 1))
      have hd31 : d = 31 := by
        have hdeq2 : d = (gregMonthLens (isLeap y)).getD 11 0 := hdeq
        omega
      subst hd31
      show validYmd (y + 1) 1 1 = true ∧ toRD (y + 1) 1 1 = toRD y 12 31 + 1
      constructor
      · rw [validYmd_iff]
        unfold gregMonthLen
        have hg : (gregMonthLens (isLeap (y + 1))).getD (1 - 1) 0 =
            (gregMonthLens (isLeap (y + 1))).getD 0 0 := rfl
        omega
      · show daysBeforeYear (y + 1) +
            ((gregMonthLens (isLeap (y + 1))).take 0).sum + 0 =
          daysBeforeYear y + ((gregMonthLens (isLeap y)).take 11).sum + 30 + 1
        have ht0 : ∀ leap : Bool, ((gregMonthLens leap).take 0).sum = 0 := by
          decide
        have := ht0 (isLeap (y + 1))
        rw [daysBeforeYear_succ, yearLen_eq]
        omega

end Nanakshahi

namespace Nanakshahi

/-! ## Claim theorems -/

/-- C9: the Nanakshahi month-length table has exactly 12 entries, 5 months
of 31 days followed by 7 months of 30 days, and its sum is 365. -/
theorem c9_month_table :
    NANAKSHAHI_DAYS_IN_MONTHS.length = 12 ∧
    NANAKSHAHI_DAYS_IN_MONTHS.take 5 = List.replicate 5 31 ∧
    NANAKSHAHI_DAYS_IN_MONTHS.drop 5 = List.replicate 7 30 ∧
    NANAKSHAHI_DAYS_IN_MONTHS.sum = 365 := by
  decide

/-- C5: for every (year, month, day) triple that is not a real Gregorian
date, `to` fails with the `InvalidDate` error instead of returning a
date. -/
theorem c5_invalid_rejected : ∀ y m d : Nat,
    validYmd y m d = false → «to» y m d = .error .invalidDate :=
  fun _ _ _ hv => to_invalid hv

/-- C5 witness: `to 2025 2 30` (February 30) fails with `InvalidDate`. -/
theorem c5_witness : «to» 2025 2 30 = .error .invalidDate :=
  c5_invalid_rejected 2025 2 30 (by decide)

/-- C2: the table-exhaustion panic of `to` is reachable from a valid
Gregorian input: on March 13 of the leap year 2028, `days_between` returns
365 (March 14, 2027 to March 13, 2028 spans February 29, 2028), the scan
exhausts the 12-month table, and the panic fires. -/
theorem c2_panic_reachable :
    validYmd 2028 3 13 = true ∧ days_between 2028 3 13 = .ok 365 ∧
    «to» 2028 3 13 = .error .offsetOverflow := by
  refine ⟨by decide, by decide, by decide⟩

/-- C3 counterexample: `to(Y, 3, 13)` does not return Phaggan 30 for every
year Y — for the leap year 2024 it panics with table exhaustion, and for
year 100 (below the epoch) the year subtraction underflows instead of
producing Chet 1. -/
theorem c3_counterexample :
    «to» 2024 3 13 = .error .offsetOverflow ∧
    «to» 100 3 14 = .error .arithUnderflow := by
  exact ⟨by decide, by decide⟩

/-- C3 (amended): for every Gregorian year `Y ≥ 1468`, `to(Y, 3, 14)` is
Chet 1 of Nanakshahi year `Y - 1468`; for every non-leap year `Y ≥ 1469`,
`to(Y, 3, 13)` is Phaggan 30 of Nanakshahi year `Y - 1469`. -/
theorem c3_epoch_boundary : ∀ Y : Nat,
    (1468 ≤ Y → «to» Y 3 14 = .ok ⟨Y - 1468, "Chet", 1⟩) ∧
    (1469 ≤ Y → isLeap Y = false →
      «to» Y 3 13 = .ok ⟨Y - 1469, "Phaggan", 30⟩) := by
  intro Y
  have he14 : epochOf 3 14 = 1468 := by decide
  have he13 : epochOf 3 13 = 1469 := by decide
  constructor
  · intro hY
    have hv := valid_mar14 Y
    have h0 := dbN_mar14 Y
    have hc := to_ok_char hv (by omega) (by omega)
    rw [h0] at hc
    rw [hc, he14]
    rw [show scanIdx 0 = 0 from rfl, show scanDay 0 = 1 from rfl]
    rfl
  · intro hY hl
    have hv : validYmd Y 3 13 = true := by
      rw [validYmd_iff]
      refine ⟨by omega, by omega, by omega, ?_⟩
      unfold gregMonthLen gregMonthLens
      rcases Bool.eq_false_or_eq_true (isLeap Y) with hx | hx <;> rw [hx] <;> simp
    have h364 : dbN Y 3 13 = 364 := by
      rw [dbN_mar13 (by omega), hl]
      simp
    have hc := to_ok_char hv (by omega) (by omega)
    rw [h364] at hc
    rw [hc, he13]
    rw [show scanIdx 364 = 11 by decide, show scanDay 364 = 30 by decide]
    rfl

/-- C3 witness: the boundary at 2025 (a non-leap year). -/
theorem c3_witness :
    «to» 2025 3 14 = .ok ⟨557, "Chet", 1⟩ ∧
    «to» 2025 3 13 = .ok ⟨556, "Phaggan", 30⟩ :=
  ⟨(c3_epoch_boundary 2025).1 (by omega),
   (c3_epoch_boundary 2025).2 (by omega) (by decide)⟩

/-- C6: whenever `to` returns a date, its Nanakshahi year is the Gregorian
year minus the selected epoch, the epoch is within the input year, and the
epoch is 1468 exactly when (month, day) is on or after (3, 14) and 1469
otherwise; `epochOf` is a function of the month and day only. -/
theorem c6_year_epoch : ∀ (y m d : Nat) (N : Date), «to» y m d = .ok N →
    N.year = y - epochOf m d ∧ epochOf m d ≤ y ∧
    ((3 < m ∨ (m = 3 ∧ 14 ≤ d)) → epochOf m d = EPOCH_ON_OR_AFTER_MID_MARCH) ∧
    (¬(3 < m ∨ (m = 3 ∧ 14 ≤ d)) → epochOf m d = EPOCH_BEFORE_MID_MARCH) := by
  intro y m d N h
  obtain ⟨hv, hey, hlt, hN⟩ := to_ok_inv h
  refine ⟨by rw [hN], hey, ?_, ?_⟩
  · intro hf
    unfold epochOf
    rw [if_pos hf]
  · intro hf
    unfold epochOf
    rw [if_neg hf]

/-- C6 witness: at March 14, 2025 the returned year 557 is 2025 minus the
epoch 1468. -/
theorem c6_witness :
    (Date.mk 557 "Chet" 1).year = 2025 - epochOf 3 14 ∧ epochOf 3 14 ≤ 2025 ∧
    ((3 < 3 ∨ (3 = 3 ∧ 14 ≤ 14)) → epochOf 3 14 = EPOCH_ON_OR_AFTER_MID_MARCH) ∧
    (¬(3 < 3 ∨ (3 = 3 ∧ 14 ≤ 14)) → epochOf 3 14 = EPOCH_BEFORE_MID_MARCH) :=
  c6_year_epoch 2025 3 14 ⟨557, "Chet", 1⟩ (by decide)

/-- C10 counterexample: at the valid date (4, 3, 13) the year 4 is below
the epoch 1469, but the failure is the table-exhaustion panic (year 4 is a
leap year), not the year-subtraction underflow the claim names. -/
theorem c10_counterexample :
    validYmd 4 3 13 = true ∧ 4 < epochOf 3 13 ∧
    «to» 4 3 13 = .error .offsetOverflow ∧
    ¬«to» 4 3 13 = .error .arithUnderflow := by
  refine ⟨by decide, by decide, by decide, by decide⟩

/-- C10 (amended): for every valid Gregorian date whose year is below the
selected epoch, `to` fails with a panic — the year-subtraction underflow,
or on March 13 of a leap year the table-exhaustion panic. -/
theorem c10_domain : ∀ y m d : Nat, validYmd y m d = true →
    y < epochOf m d →
    «to» y m d = .error .arithUnderflow ∨
    «to» y m d = .error .offsetOverflow := by
  intro y m d hv hy
  by_cases hfy : flagOf m d ≤ y
  · by_cases hlt : dbN y m d < 365
    · exact Or.inl (to_underflow_epoch hv hfy hlt hy)
    · exact Or.inr (to_overflow_char hv hfy (by omega))
  · exact Or.inl (to_underflow_db hv (by omega))

/-- C10 witness: year 1000 is below the epoch and `to` fails. -/
theorem c10_witness :
    «to» 1000 5 5 = .error .arithUnderflow ∨
    «to» 1000 5 5 = .error .offsetOverflow :=
  c10_domain 1000 5 5 (by decide) (by decide)

/-- C4 counterexample: `from` with day 32 of Chet (outside the valid range
1..31) silently wraps into the next months and returns April 14, 2025 —
it does not return any error value. -/
theorem c4_counterexample :
    «from» 557 1 32 = .ok ⟨2025, "April", 14⟩ ∧
    ∀ e : ConvError, ¬«from» 557 1 32 = .error e := by
  have h : «from» 557 1 32 = .ok ⟨2025, "April", 14⟩ := by decide
  refine ⟨h, ?_⟩
  intro e he
  rw [h] at he
  exact absurd he (by simp)

/-- C4 (amended): `from` performs no input validation and has no
InvalidMonth/InvalidDay error values: month 0 hits the `month - 1`
underflow panic, months 14 and above hit the out-of-bounds table access
panic, and out-of-range days (and month 13) are silently absorbed into the
day offset, wrapping into adjacent months. -/
theorem c4_no_validation :
    (∀ y d : Nat, «from» y 0 d = .error .arithUnderflow) ∧
    (∀ y mo d : Nat, 14 ≤ mo → «from» y mo d = .error .indexOutOfBounds) ∧
    «from» 557 1 32 = .ok ⟨2025, "April", 14⟩ := by
  refine ⟨from_month0, fun y mo d h => from_oob h, by decide⟩

/-- C4 witness: month 14 hits the out-of-bounds table access. -/
theorem c4_witness : «from» 557 14 1 = .error .indexOutOfBounds :=
  c4_no_validation.2.1 557 14 1 (by omega)

/-- C8 counterexample: at the valid Gregorian date (0, 1, 1) — year 0 of
the proleptic calendar, accepted by the date primitive — `days_between`
does not return any day offset: the `u16` reference-year subtraction
`0 - 1` underflows. -/
theorem c8_counterexample :
    validYmd 0 1 1 = true ∧ days_between 0 1 1 = .error .arithUnderflow := by
  refine ⟨by decide, by decide⟩

/-- C8 (amended): for every valid Gregorian date with year at least 1,
`days_between` returns the whole-day difference between the date and
March 14 of the selected reference year (the same year on or after
March 14, the previous year before it); the result is non-negative and is
exactly 0 on March 14 itself. -/
theorem c8_days_between : ∀ y m d : Nat, validYmd y m d = true → 1 ≤ y →
    days_between y m d =
      .ok ((toRD y m d : Int) - (toRD (y - flagOf m d) 3 14 : Int)) ∧
    0 ≤ (toRD y m d : Int) - (toRD (y - flagOf m d) 3 14 : Int) ∧
    ((3 < m ∨ (m = 3 ∧ 14 ≤ d)) → y - flagOf m d = y) ∧
    (¬(3 < m ∨ (m = 3 ∧ 14 ≤ d)) → y - flagOf m d = y - 1) ∧
    (m = 3 → d = 14 → days_between y m d = .ok 0) := by
  intro y m d hv hy
  have hfy : flagOf m d ≤ y := by
    have := flagOf_le_one m d
    omega
  have href := ref_le_toRD hv hfy
  refine ⟨days_between_ok hv hfy, by omega, ?_, ?_, ?_⟩
  · intro hf
    rw [flagOf_pos hf]
    omega
  · intro hf
    rw [flagOf_neg hf]
  · rintro rfl rfl
    rw [days_between_eq_dbN hv hfy, dbN_mar14]
    rfl

/-- C8 witness: March 20, 2025 is six days after its reference date. -/
theorem c8_witness :
    days_between 2025 3 20 =
      .ok ((toRD 2025 3 20 : Int) - (toRD (2025 - flagOf 3 20) 3 14 : Int)) ∧
    0 ≤ (toRD 2025 3 20 : Int) - (toRD (2025 - flagOf 3 20) 3 14 : Int) ∧
    ((3 < 3 ∨ (3 = 3 ∧ 14 ≤ 20)) → 2025 - flagOf 3 20 = 2025) ∧
    (¬(3 < 3 ∨ (3 = 3 ∧ 14 ≤ 20)) → 2025 - flagOf 3 20 = 2025 - 1) ∧
    (3 = 3 → 20 = 14 → days_between 2025 3 20 = .ok 0) :=
  c8_days_between 2025 3 20 (by decide) (by omega)

end Nanakshahi

namespace Nanakshahi

/-- Round trip Gregorian → Nanakshahi → Gregorian, on the domain where
`to` succeeds and the `u16` year cast is lossless. -/
theorem roundtrip_g2n {y m d : Nat} (hv : validYmd y m d = true)
    (hey : epochOf m d ≤ y) (hu : y < 65536)
    (hx : ¬(m = 3 ∧ d = 13 ∧ isLeap y = true)) :
    ∃ N : Date, «to» y m d = .ok N ∧
      «from» N.year (nanMonthIndex N.month) N.day =
        .ok ⟨y, GREGORIAN_MONTH_NAMES.getD (m - 1) "", d⟩ := by
  have hfy : flagOf m d ≤ y := by
    have := epochOf_eq m d
    have := flagOf_le_one m d
    omega
  have hlt := dbN_lt_365 hv hfy hx
  have hs := scanRes_spec (dbN y m d) hlt
  refine ⟨_, to_ok_char hv hey hlt, ?_⟩
  show «from» (y - epochOf m d)
      (nanMonthIndex (NANAKSHAHI_MONTH_NAMES.getD (scanIdx (dbN y m d)) ""))
      (scanDay (dbN y m d)) = _
  rw [nanMonthIndex_getD (scanIdx (dbN y m d)) hs.2.1]
  have ht : toRD y m d = toRD ((y - epochOf m d) + EPOCH_ON_OR_AFTER_MID_MARCH) 3 14 +
      (NCum ((scanIdx (dbN y m d) + 1) - 1) + (scanDay (dbN y m d) - 1)) := by
    have hepo := epochOf_eq m d
    have hyf : (y - epochOf m d) + EPOCH_ON_OR_AFTER_MID_MARCH = y - flagOf m d := by
      unfold EPOCH_ON_OR_AFTER_MID_MARCH
      omega
    rw [hyf, show (scanIdx (dbN y m d) + 1) - 1 = scanIdx (dbN y m d) by omega]
    have hcum := hs.2.2.2.2
    have hex := dbN_exact hv hfy
    omega
  rw [from_ok_char (by omega) (by have := hs.2.1; omega) hs.2.2.1 ht]
  rw [toRD_civil hv]
  have hval := hv
  rw [validYmd_iff] at hval
  obtain ⟨h1, h2, h3, h4⟩ := hval
  have hd31 : d ≤ 31 := by
    have := monthLens_le31 (isLeap y) (m - 1) (by omega)
    unfold gregMonthLen at h4
    omega
  show Conv.ok (Date.mk (y % 65536) (GREGORIAN_MONTH_NAMES.getD (m - 1) "")
    (d % 256)) = _
  rw [Nat.mod_eq_of_lt (show y < 65536 by omega),
    Nat.mod_eq_of_lt (show d < 256 by omega)]

end Nanakshahi

namespace Nanakshahi

/-- Round trip Nanakshahi → Gregorian → Nanakshahi, on the domain of valid
Nanakshahi dates whose Gregorian image fits in `u16`. -/
theorem roundtrip_n2g {nY mo dd : Nat} (h1 : 1 ≤ mo) (h2 : mo ≤ 12)
    (h3 : 1 ≤ dd) (h4 : dd ≤ NANAKSHAHI_DAYS_IN_MONTHS.getD (mo - 1) 0)
    (hnY : nY ≤ 64066) :
    ∃ G : Date, «from» nY mo dd = .ok G ∧
      «to» G.year (gregMonthIndex G.month) G.day =
        .ok ⟨nY, NANAKSHAHI_MONTH_NAMES.getD (mo - 1) "", dd⟩ := by
  have hdd31 : dd ≤ 31 := by
    have := nanTable_le31 (mo - 1) (by omega)
    omega
  have hinv := scanRes_inv (mo - 1) (by omega) (dd - 1) (by omega) (by omega)
  have hk364 : NCum (mo - 1) + (dd - 1) ≤ 364 := hinv.2
  have hty : toRD (nY + 1468) 3 14 + (NCum (mo - 1) + (dd - 1)) <
      toRD (nY + 1468 + 1) 3 14 := by
    rw [show toRD (nY + 1468 + 1) 3 14 = toRD (nY + 1468) 3 14 + 365 +
      (if isLeap (nY + 1468 + 1) then 1 else 0) from toRD_mar14_succ (nY + 1468)]
    omega
  have href := rd_ref_year (show 1 ≤ nY + 1468 by omega)
    (show toRD (nY + 1468) 3 14 ≤
      toRD (nY + 1468) 3 14 + (NCum (mo - 1) + (dd - 1)) by omega) hty
  obtain ⟨hrf1, hrf2, hrf3⟩ := href
  obtain ⟨hv', hrd'⟩ :=
    civilFromRD_valid (toRD (nY + 1468) 3 14 + (NCum (mo - 1) + (dd - 1)))
  have hfrom := from_ok_char h1 (by omega) h3
    (show toRD (nY + 1468) 3 14 + (NCum (mo - 1) + (dd - 1)) =
      toRD (nY + EPOCH_ON_OR_AFTER_MID_MARCH) 3 14 +
        (NCum (mo - 1) + (dd - 1)) from rfl)
  refine ⟨_, hfrom, ?_⟩
  have hval' := hv'
  rw [validYmd_iff] at hval'
  obtain ⟨hm1, hm2, hd1, hd2⟩ := hval'
  have hd31' :
      (civilFromRD (toRD (nY + 1468) 3 14 + (NCum (mo - 1) + (dd - 1)))).2.2
        ≤ 31 := by
    have := monthLens_le31
      (isLeap (civilFromRD (toRD (nY + 1468) 3 14 +
        (NCum (mo - 1) + (dd - 1)))).1)
      ((civilFromRD (toRD (nY + 1468) 3 14 +
        (NCum (mo - 1) + (dd - 1)))).2.1 - 1) (by omega)
    unfold gregMonthLen at hd2
    omega
  have hgm : gregMonthIndex (GREGORIAN_MONTH_NAMES.getD
      ((civilFromRD (toRD (nY + 1468) 3 14 +
        (NCum (mo - 1) + (dd - 1)))).2.1 - 1) "") =
      (civilFromRD (toRD (nY + 1468) 3 14 + (NCum (mo - 1) + (dd - 1)))).2.1 := by
    have := gregMonthIndex_getD
      ((civilFromRD (toRD (nY + 1468) 3 14 +
        (NCum (mo - 1) + (dd - 1)))).2.1 - 1) (by omega)
    rw [this]
    omega
  show «to» ((civilFromRD (toRD (nY + 1468) 3 14 +
      (NCum (mo - 1) + (dd - 1)))).1 % 65536)
    (gregMonthIndex (GREGORIAN_MONTH_NAMES.getD
      ((civilFromRD (toRD (nY + 1468) 3 14 +
        (NCum (mo - 1) + (dd - 1)))).2.1 - 1) ""))
    ((civilFromRD (toRD (nY + 1468) 3 14 +
      (NCum (mo - 1) + (dd - 1)))).2.2 % 256) = _
  rw [Nat.mod_eq_of_lt (show (civilFromRD (toRD (nY + 1468) 3 14 +
      (NCum (mo - 1) + (dd - 1)))).1 < 65536 by omega),
    hgm,
    Nat.mod_eq_of_lt (show (civilFromRD (toRD (nY + 1468) 3 14 +
      (NCum (mo - 1) + (dd - 1)))).2.2 < 256 by omega)]
  have hdbn : dbN (civilFromRD (toRD (nY + 1468) 3 14 +
      (NCum (mo - 1) + (dd - 1)))).1
      (civilFromRD (toRD (nY + 1468) 3 14 + (NCum (mo - 1) + (dd - 1)))).2.1
      (civilFromRD (toRD (nY + 1468) 3 14 + (NCum (mo - 1) + (dd - 1)))).2.2 =
      NCum (mo - 1) + (dd - 1) := by
    have hex := dbN_exact hv' hrf1
    rw [hrf2] at hex
    omega
  have hey' : epochOf
      (civilFromRD (toRD (nY + 1468) 3 14 + (NCum (mo - 1) + (dd - 1)))).2.1
      (civilFromRD (toRD (nY + 1468) 3 14 + (NCum (mo - 1) + (dd - 1)))).2.2 ≤
      (civilFromRD (toRD (nY + 1468) 3 14 + (NCum (mo - 1) + (dd - 1)))).1 := by
    have := epochOf_eq
      (civilFromRD (toRD (nY + 1468) 3 14 + (NCum (mo - 1) + (dd - 1)))).2.1
      (civilFromRD (toRD (nY + 1468) 3 14 + (NCum (mo - 1) + (dd - 1)))).2.2
    omega
  rw [to_ok_char hv' hey' (by rw [hdbn]; omega), hdbn]
  have hsk := scanRes_spec (NCum (mo - 1) + (dd - 1)) (by omega)
  have hpair : (scanIdx (NCum (mo - 1) + (dd - 1)),
      scanDay (NCum (mo - 1) + (dd - 1))) = (mo - 1, dd) := by
    have h5 := hinv.1
    rw [show (dd - 1) + 1 = dd by omega] at h5
    have h6 := hsk.1.symm.trans h5
    exact Option.some.inj h6
  have hidx : scanIdx (NCum (mo - 1) + (dd - 1)) = mo - 1 := by
    have := congrArg Prod.fst hpair
    simpa using this
  have hday : scanDay (NCum (mo - 1) + (dd - 1)) = dd := by
    have := congrArg Prod.snd hpair
    simpa using this
  rw [hidx, hday]
  have hyear : (civilFromRD (toRD (nY + 1468) 3 14 +
      (NCum (mo - 1) + (dd - 1)))).1 - epochOf
      (civilFromRD (toRD (nY + 1468) 3 14 + (NCum (mo - 1) + (dd - 1)))).2.1
      (civilFromRD (toRD (nY + 1468) 3 14 + (NCum (mo - 1) + (dd - 1)))).2.2 =
      nY := by
    have := epochOf_eq
      (civilFromRD (toRD (nY + 1468) 3 14 + (NCum (mo - 1) + (dd - 1)))).2.1
      (civilFromRD (toRD (nY + 1468) 3 14 + (NCum (mo - 1) + (dd - 1)))).2.2
    omega
  rw [hyear]

end Nanakshahi

namespace Nanakshahi

/-- C1 counterexample: the Gregorian→Nanakshahi→Gregorian round trip fails
at the valid Gregorian date March 13, 2032 (a leap year): `to` panics with
table exhaustion, so no Nanakshahi date exists to convert back. -/
theorem c1_counterexample :
    validYmd 2032 3 13 = true ∧ «to» 2032 3 13 = .error .offsetOverflow := by
  exact ⟨by decide, by decide⟩

/-- C1 (amended): the round trip holds on the restricted domains.
Gregorian → Nanakshahi → Gregorian: for every valid Gregorian date whose
year is at least the selected epoch and fits in `u16`, except March 13 of
leap years (where `to` panics).  Nanakshahi → Gregorian → Nanakshahi: for
every valid Nanakshahi date (month 1..12, day within the month length)
with year at most 64066 (so the Gregorian year fits in `u16`). -/
theorem c1_roundtrip :
    (∀ y m d : Nat, validYmd y m d = true → epochOf m d ≤ y → y < 65536 →
      ¬(m = 3 ∧ d = 13 ∧ isLeap y = true) →
      ∃ N : Date, «to» y m d = .ok N ∧
        «from» N.year (nanMonthIndex N.month) N.day =
          .ok ⟨y, GREGORIAN_MONTH_NAMES.getD (m - 1) "", d⟩) ∧
    (∀ nY mo dd : Nat, 1 ≤ mo → mo ≤ 12 → 1 ≤ dd →
      dd ≤ NANAKSHAHI_DAYS_IN_MONTHS.getD (mo - 1) 0 → nY ≤ 64066 →
      ∃ G : Date, «from» nY mo dd = .ok G ∧
        «to» G.year (gregMonthIndex G.month) G.day =
          .ok ⟨nY, NANAKSHAHI_MONTH_NAMES.getD (mo - 1) "", dd⟩) :=
  ⟨fun _ _ _ hv hey hu hx => roundtrip_g2n hv hey hu hx,
   fun _ _ _ h1 h2 h3 h4 h5 => roundtrip_n2g h1 h2 h3 h4 h5⟩

/-- C1 witness: the round trip at July 19, 2000 and at Chet 1, 557. -/
theorem c1_witness :
    (∃ N : Date, «to» 2000 7 19 = .ok N ∧
      «from» N.year (nanMonthIndex N.month) N.day =
        .ok ⟨2000, GREGORIAN_MONTH_NAMES.getD (7 - 1) "", 19⟩) ∧
    (∃ G : Date, «from» 557 1 1 = .ok G ∧
      «to» G.year (gregMonthIndex G.month) G.day =
        .ok ⟨557, NANAKSHAHI_MONTH_NAMES.getD (1 - 1) "", 1⟩) :=
  ⟨c1_roundtrip.1 2000 7 19 (by decide) (by decide) (by decide) (by decide),
   c1_roundtrip.2 557 1 1 (by omega) (by omega) (by omega) (by decide)
     (by omega)⟩

end Nanakshahi

namespace Nanakshahi

/-- Common within-year step: if the successor offset is the offset plus one
and the Nanakshahi year is unchanged, the result is day+1 of the same month
or day 1 of the next month. -/
theorem c7_tail {y m d y2 m2 d2 : Nat} {N N' : Date}
    (hN : N = ⟨y - epochOf m d,
      NANAKSHAHI_MONTH_NAMES.getD (scanIdx (dbN y m d)) "",
      scanDay (dbN y m d)⟩)
    (hN' : N' = ⟨y2 - epochOf m2 d2,
      NANAKSHAHI_MONTH_NAMES.getD (scanIdx (dbN y2 m2 d2)) "",
      scanDay (dbN y2 m2 d2)⟩)
    (hyear : y2 - epochOf m2 d2 = y - epochOf m d)
    (hkk : dbN y2 m2 d2 = dbN y m d + 1)
    (hlt' : dbN y2 m2 d2 < 365) :
    N'.year = N.year ∧
    ((N'.month = N.month ∧ N'.day = N.day + 1) ∨
     (N'.month = NANAKSHAHI_MONTH_NAMES.getD (nanMonthIndex N.month) "" ∧
      N'.day = 1)) := by
  subst hN hN'
  refine ⟨by simpa using hyear, ?_⟩
  have hidx12 := (scanRes_spec (dbN y m d) (by omega)).2.1
  have hsucc := scanRes_succ (dbN y m d) (by omega)
  rw [nanMonthIndex_getD (scanIdx (dbN y m d)) hidx12]
  rcases hsucc with ⟨hi, hd⟩ | ⟨hi, hd⟩
  · left
    rw [hkk, hi, hd]
    exact ⟨rfl, rfl⟩
  · right
    rw [hkk, hi, hd]
    exact ⟨rfl, rfl⟩

/-- C7 counterexample: March 12, 2036 maps to Phaggan 30 (the last day of
the table) but its successor March 13, 2036, which by the epoch rule falls
in the same Nanakshahi year, makes `to` panic instead of producing the
next Nanakshahi day. -/
theorem c7_counterexample :
    «to» 2036 3 12 = .ok ⟨567, "Phaggan", 30⟩ ∧
    «to» 2036 3 13 = .error .offsetOverflow := by
  exact ⟨by decide, by decide⟩

/-- C7 (amended): for every valid Gregorian date D on which `to` succeeds
and whose successor D+1 `to` also succeeds on: if D+1 is March 14 the
result is Chet 1 with the Nanakshahi year incremented; otherwise the
Nanakshahi year is unchanged and the result is the same month with the day
incremented, or day 1 of the next Nanakshahi month.  (`to` fails on D+1
exactly on March 13 of leap years, which the original claim does not
account for.) -/
theorem c7_monotone : ∀ (y m d : Nat) (N N' : Date),
    validYmd y m d = true →
    «to» y m d = .ok N →
    «to» (nextDate y m d).1 (nextDate y m d).2.1 (nextDate y m d).2.2 =
      .ok N' →
    (((nextDate y m d).2.1 = 3 ∧ (nextDate y m d).2.2 = 14) →
      N'.year = N.year + 1 ∧ N'.month = "Chet" ∧ N'.day = 1) ∧
    (¬((nextDate y m d).2.1 = 3 ∧ (nextDate y m d).2.2 = 14) →
      N'.year = N.year ∧
      ((N'.month = N.month ∧ N'.day = N.day + 1) ∨
       (N'.month = NANAKSHAHI_MONTH_NAMES.getD (nanMonthIndex N.month) "" ∧
        N'.day = 1))) := by
  intro y m d N N' hv h h'
  have hval := hv
  rw [validYmd_iff] at hval
  obtain ⟨hm1, hm2, hd1, hd2⟩ := hval
  obtain ⟨hnv, hnrd⟩ := nextDate_spec hv
  obtain ⟨_, hey, hlt, hN⟩ := to_ok_inv h
  have hfy : flagOf m d ≤ y := by
    have := epochOf_eq m d
    have := flagOf_le_one m d
    omega
  have hex := dbN_exact hv hfy
  by_cases hd : d < gregMonthLen y m
  · -- successor is (y, m, d + 1)
    have hnd : nextDate y m d = (y, m, d + 1) := by
      unfold nextDate
      rw [if_pos hd]
    rw [hnd] at h' hnv hnrd ⊢
    replace h' : «to» y m (d + 1) = .ok N' := h'
    replace hnv : validYmd y m (d + 1) = true := hnv
    replace hnrd : toRD y m (d + 1) = toRD y m d + 1 := hnrd
    obtain ⟨_, hey', hlt', hN'⟩ := to_ok_inv h'
    have hfy' : flagOf m (d + 1) ≤ y := by
      have := epochOf_eq m (d + 1)
      have := flagOf_le_one m (d + 1)
      omega
    have hex' := dbN_exact hnv hfy'
    show ((m = 3 ∧ d + 1 = 14) → _) ∧ (¬(m = 3 ∧ d + 1 = 14) → _)
    by_cases hb : m = 3 ∧ d + 1 = 14
    · obtain ⟨hbm, hbd⟩ := hb
      subst hbm
      have hbd13 : d = 13 := by omega
      subst hbd13
      constructor
      · intro _
        have h0 : dbN y 3 (13 + 1) = 0 := dbN_mar14 y
        rw [h0] at hN'
        rw [hN', hN]
        have he13 : epochOf 3 13 = 1469 := by decide
        have he14 : epochOf 3 (13 + 1) = 1468 := by decide
        rw [he13] at hey ⊢
        rw [he14]
        refine ⟨by simp; omega, rfl, rfl⟩
      · intro hc
        exact absurd ⟨rfl, rfl⟩ hc
    · constructor
      · intro hc
        exact absurd hc hb
      · intro _
        have hflag : flagOf m (d + 1) = flagOf m d := by
          unfold flagOf
          split_ifs <;> omega
        have hepoch : epochOf m (d + 1) = epochOf m d := by
          have := epochOf_eq m (d + 1)
          have := epochOf_eq m d
          omega
        have hkk : dbN y m (d + 1) = dbN y m d + 1 := by
          rw [hflag] at hex'
          omega
        exact c7_tail hN hN' (by omega) (by omega) (by omega)
  · have hdlen : d = gregMonthLen y m := by omega
    by_cases hm : m < 12
    · -- successor is (y, m + 1, 1)
      have hnd : nextDate y m d = (y, m + 1, 1) := by
        unfold nextDate
        rw [if_neg hd, if_pos hm]
      rw [hnd] at h' hnv hnrd ⊢
      replace h' : «to» y (m + 1) 1 = .ok N' := h'
      replace hnv : validYmd y (m + 1) 1 = true := hnv
      replace hnrd : toRD y (m + 1) 1 = toRD y m d + 1 := hnrd
      obtain ⟨_, hey', hlt', hN'⟩ := to_ok_inv h'
      have hfy' : flagOf (m + 1) 1 ≤ y := by
        have := epochOf_eq (m + 1) 1
        have := flagOf_le_one (m + 1) 1
        omega
      have hex' := dbN_exact hnv hfy'
      show ((m + 1 = 3 ∧ 1 = 14) → _) ∧ (¬(m + 1 = 3 ∧ 1 = 14) → _)
      constructor
      · intro hc
        omega
      · intro _
        have hm3d : m = 3 → 14 ≤ d := by
          intro hm3
          subst hm3
          have hg3 : gregMonthLen y 3 = 31 := by
            unfold gregMonthLen gregMonthLens
            rcases Bool.eq_false_or_eq_true (isLeap y) with hx | hx <;>
              rw [hx] <;> rfl
          omega
        have hflag : flagOf (m + 1) 1 = flagOf m d := by
          unfold flagOf
          split_ifs <;> omega
        have hepoch : epochOf (m + 1) 1 = epochOf m d := by
          have := epochOf_eq (m + 1) 1
          have := epochOf_eq m d
          omega
        have hkk : dbN y (m + 1) 1 = dbN y m d + 1 := by
          rw [hflag] at hex'
          omega
        exact c7_tail hN hN' (by omega) (by omega) (by omega)
    · -- successor is (y + 1, 1, 1)
      have hnd : nextDate y m d = (y + 1, 1, 1) := by
        unfold nextDate
        rw [if_neg hd, if_neg hm]
      have hm12 : m = 12 := by omega
      subst hm12
      rw [hnd] at h' hnv hnrd ⊢
      replace h' : «to» (y + 1) 1 1 = .ok N' := h'
      replace hnv : validYmd (y + 1) 1 1 = true := hnv
      replace hnrd : toRD (y + 1) 1 1 = toRD y 12 d + 1 := hnrd
      obtain ⟨_, hey', hlt', hN'⟩ := to_ok_inv h'
      have hex' := dbN_exact hnv (by
        have := epochOf_eq 1 1
        have := flagOf_le_one 1 1
        omega)
      show ((1 = 3 ∧ 1 = 14) → _) ∧ (¬(1 = 3 ∧ 1 = 14) → _)
      constructor
      · intro hc
        omega
      · intro _
        have hf12 : flagOf 12 d = 0 := flagOf_pos (by omega)
        have hf11 : flagOf 1 1 = 1 := flagOf_neg (by omega)
        have he12 : epochOf 12 d = 1468 := by
          have := epochOf_eq 12 d
          omega
        have he11 : epochOf 1 1 = 1469 := by
          have := epochOf_eq 1 1
          omega
        have hkk : dbN (y + 1) 1 1 = dbN y 12 d + 1 := by
          rw [hf11] at hex'
          rw [hf12] at hex
          have hyy : y + 1 - 1 = y - 0 := by omega
          rw [hyy] at hex'
          omega
        have hyear : y + 1 - epochOf 1 1 = y - epochOf 12 d := by
          rw [he11, he12]
          rw [he12] at hey
          omega
        exact c7_tail hN hN' hyear (by omega) (by omega)

/-- C7 witness: March 14, 2025 (Chet 1) steps to March 15 (Chet 2). -/
theorem c7_witness :
    (((nextDate 2025 3 14).2.1 = 3 ∧ (nextDate 2025 3 14).2.2 = 14) →
      (Date.mk 557 "Chet" 2).year = (Date.mk 557 "Chet" 1).year + 1 ∧
      (Date.mk 557 "Chet" 2).month = "Chet" ∧
      (Date.mk 557 "Chet" 2).day = 1) ∧
    (¬((nextDate 2025 3 14).2.1 = 3 ∧ (nextDate 2025 3 14).2.2 = 14) →
      (Date.mk 557 "Chet" 2).year = (Date.mk 557 "Chet" 1).year ∧
      (((Date.mk 557 "Chet" 2).month = (Date.mk 557 "Chet" 1).month ∧
        (Date.mk 557 "Chet" 2).day = (Date.mk 557 "Chet" 1).day + 1) ∨
       ((Date.mk 557 "Chet" 2).month =
          NANAKSHAHI_MONTH_NAMES.getD (nanMonthIndex (Date.mk 557 "Chet" 1).month) "" ∧
        (Date.mk 557 "Chet" 2).day = 1))) :=
  c7_monotone 2025 3 14 ⟨557, "Chet", 1⟩ ⟨557, "Chet", 2⟩ (by decide)
    (by decide) (by decide)

end Nanakshahi
